import Mathlib

/-!
Verification of the statistical-arbitrage pairs-trading engine.

Shallow embedding of the analytical core of the repository:
  * `src/estimation/kalman.py`  — recursive hedge estimator (Kalman filter);
  * `src/signals/zscore.py`     — z-score signal state machine and P&L;
  * `src/cointegration/tester.py` — half-life estimate and pair screening;
  * `src/backtest/engine.py`    — summary performance metrics.

Floating-point numbers are modelled as elements of a linear ordered field
(instantiated at `ℚ` for concrete evaluations, at `ℝ` where `sqrt`, `log`
or `np.inf` appear); a pandas `NaN` entry is modelled as `Option.none`;
Python exceptions are modelled with `Except`.
-/

namespace StatArb

variable {α : Type} [LinearOrderedField α]

/-- Configuration of the recursive hedge estimator: the constructor arguments of
class `KalmanHedgeRatio` (`kalman.py` lines 13-18).  `Ve` is the observation
noise (`self.Ve = observation_noise`). -/
structure KalmanConfig (α : Type) where
  delta : α
  Ve : α
  initial_mean : α
  initial_cov : α

/-- Body of the `filter` loop (`kalman.py` lines 29-41) as a function of the
carried state `(beta[t-1], P[t-1])` and the observation `(y_t, x_t)`; returns
`(beta[t], P[t], e_t)`.  Transcribed independently of `online_update` because
claim C1 is exactly that the two implement the same arithmetic. -/
def filterStep (k : KalmanConfig α) (b P : α) (obs : α × α) : α × α × α :=
  let beta_pred := b
  let P_pred := P + k.delta / (1 - k.delta)
  let e := obs.1 - beta_pred * obs.2
  let S := obs.2 * P_pred * obs.2 + k.Ve
  let K := P_pred * obs.2 / S
  (beta_pred + K * e, (1 - K * obs.2) * P_pred, e)

/-- The `for t in range(1, n)` loop of `filter`: runs `filterStep` over the
observations from index 1 on, emitting `(beta[t], P[t], e_t)` per step. -/
def filterAux (k : KalmanConfig α) (b P : α) : List (α × α) → List (α × α × α)
  | [] => []
  | obs :: rest =>
    let r := filterStep k b P obs
    r :: filterAux k r.1 r.2.1 rest

/-- The columns of the results frame built by `KalmanHedgeRatio.filter`
(`kalman.py` lines 43-48): `beta` is column `hedge_ratio`, `P` the variance
path whose square root is column `hedge_ratio_std`, `spread` the column
`y.values - beta * x.values`, and `forecastError` the column
`forecast_error`. -/
structure FilterResult (α : Type) where
  beta : List α
  P : List α
  spread : List α
  forecastError : List α

/-- Embeds `KalmanHedgeRatio.filter` (`kalman.py` lines 20-48).  Row 0 holds the prior
`(initial_mean, initial_cov)` with forecast error 0 (the `np.zeros` fill is
never overwritten at index 0); the loop starts at index 1.  On an empty series
the Python code raises (`beta[0]` indexing an empty array), hence `none`;
the series are assumed aligned (equal length). -/
def filterRun (k : KalmanConfig α) (y x : List α) : Option (FilterResult α) :=
  match y, x with
  | y0 :: ys, x0 :: xs =>
    let steps := filterAux k k.initial_mean k.initial_cov (ys.zip xs)
    let betas := k.initial_mean :: steps.map (fun r => r.1)
    some
      { beta := betas
        P := k.initial_cov :: steps.map (fun r => r.2.1)
        spread := ((y0 :: ys).zip (((x0 :: xs)).zip betas)).map
          (fun p => p.1 - p.2.2 * p.2.1)
        forecastError := 0 :: steps.map (fun r => r.2.2) }
  | _, _ => none

/-- Embeds `KalmanHedgeRatio.online_update` (`kalman.py` lines 50-57): single-step
update, returns `(beta_new, P_new, e)`. -/
def onlineUpdate (k : KalmanConfig α) (y_new x_new beta_prev P_prev : α) :
    α × α × α :=
  let Vw := k.delta / (1 - k.delta)
  let P_pred := P_prev + Vw
  let S := x_new * P_pred * x_new + k.Ve
  let K := P_pred * x_new / S
  let e := y_new - beta_prev * x_new
  (beta_prev + K * e, (1 - K * x_new) * P_pred, e)

/-- Step-by-step replay of a path through `online_update`, carrying
`(beta, P)` forward — the incremental entry point applied to a full history. -/
def replayOnline (k : KalmanConfig α) (b P : α) : List (α × α) → List (α × α × α)
  | [] => []
  | obs :: rest =>
    let r := onlineUpdate k obs.1 obs.2 b P
    r :: replayOnline k r.1 r.2.1 rest

/-- Innovation variance `S` (`kalman.py` line 35 and line 54). -/
def innovationS (k : KalmanConfig α) (x P_pred : α) : α :=
  x * P_pred * x + k.Ve

/-- Kalman gain `K` (`kalman.py` line 36 and line 55). -/
def gainK (k : KalmanConfig α) (x P_pred : α) : α :=
  P_pred * x / innovationS k x P_pred

theorem replayOnline_eq_filterAux (k : KalmanConfig α) (b P : α)
    (l : List (α × α)) : replayOnline k b P l = filterAux k b P l := by
  induction l generalizing b P with
  | nil => rfl
  | cons obs rest ih =>
    simp only [replayOnline, filterAux]
    have hstep : onlineUpdate k obs.1 obs.2 b P = filterStep k b P obs := rfl
    rw [hstep, ih]

/-- C1: folding `online_update` step-by-step from the configured initial state
reproduces the per-step hedge and variance (and forecast-error) sequences of a
single call to `filter`: the two entry points implement identical per-step
arithmetic. -/
theorem online_replay_eq_filter (k : KalmanConfig α) :
    (∀ (b P : α) (l : List (α × α)), replayOnline k b P l = filterAux k b P l) ∧
    ∀ (y0 x0 : α) (ys xs : List α) (res : FilterResult α),
      filterRun k (y0 :: ys) (x0 :: xs) = some res →
      res.beta = k.initial_mean ::
          (replayOnline k k.initial_mean k.initial_cov (ys.zip xs)).map
            (fun r => r.1) ∧
      res.P = k.initial_cov ::
          (replayOnline k k.initial_mean k.initial_cov (ys.zip xs)).map
            (fun r => r.2.1) ∧
      res.forecastError = 0 ::
          (replayOnline k k.initial_mean k.initial_cov (ys.zip xs)).map
            (fun r => r.2.2) := by
  refine ⟨fun b P l => replayOnline_eq_filterAux k b P l, ?_⟩
  intro y0 x0 ys xs res h
  simp only [filterRun, Option.some.injEq] at h
  subst h
  simp [replayOnline_eq_filterAux]

/-- Witness for C1 at a concrete configuration and two-observation series. -/
theorem online_replay_eq_filter_witness :
    (filterRun (⟨1/2, 1, 0, 1⟩ : KalmanConfig ℚ) [1, 2] [1, 1]).map
        FilterResult.beta =
      some (0 :: (replayOnline (⟨1/2, 1, 0, 1⟩ : KalmanConfig ℚ) 0 1
        [(2, 1)]).map (fun r => r.1)) := by
  have h := ((online_replay_eq_filter (⟨1/2, 1, 0, 1⟩ : KalmanConfig ℚ)).2
    1 1 [2] [1] _ rfl).1
  exact congrArg some h

theorem filterAux_length (k : KalmanConfig α) (b P : α) (l : List (α × α)) :
    (filterAux k b P l).length = l.length := by
  induction l generalizing b P with
  | nil => rfl
  | cons obs rest ih => simp [filterAux, ih]

theorem filterAux_get_zero (k : KalmanConfig α) (b P : α) (l : List (α × α)) :
    (filterAux k b P l).get? 0 = (l.get? 0).map (filterStep k b P) := by
  cases l <;> simp [filterAux]

theorem filterAux_get_succ (k : KalmanConfig α) (b P : α) (l : List (α × α))
    (i : ℕ) :
    (filterAux k b P l).get? (i + 1) =
      ((filterAux k b P l).get? i).bind
        (fun r => (l.get? (i + 1)).map (filterStep k r.1 r.2.1)) := by
  induction l generalizing b P i with
  | nil => simp [filterAux]
  | cons obs rest ih =>
    cases i with
    | zero =>
      simp only [filterAux, List.get?]
      rw [filterAux_get_zero]
      simp
    | succ j =>
      simp only [filterAux, List.get?]
      rw [ih]

/-- C8: at a step with `x_t = 0` (and positive observation noise) the update
divides by a nonzero quantity: `S` collapses to the observation noise, the
gain `K` is 0, and both `online_update` and the `filter` loop leave the hedge
estimate unchanged at that step. -/
theorem kalman_zero_x (k : KalmanConfig α) (hVe : 0 < k.Ve) :
    (∀ P_pred : α, innovationS k 0 P_pred = k.Ve ∧
      innovationS k 0 P_pred ≠ 0 ∧ gainK k 0 P_pred = 0) ∧
    (∀ y b P : α, (onlineUpdate k y 0 b P).1 = b) ∧
    (∀ (b P : α) (obs : α × α), obs.2 = 0 → (filterStep k b P obs).1 = b) ∧
    (∀ (y0 x0 : α) (ys xs : List α) (res : FilterResult α) (t : ℕ) (yt : α),
      filterRun k (y0 :: ys) (x0 :: xs) = some res →
      (ys.zip xs).get? t = some (yt, 0) →
      res.beta.get? (t + 1) = res.beta.get? t) := by
  have hS : ∀ P_pred : α, innovationS k 0 P_pred = k.Ve := by
    intro P_pred; simp [innovationS]
  have hstep : ∀ (b P : α) (obs : α × α), obs.2 = 0 →
      (filterStep k b P obs).1 = b := by
    intro b P obs h0
    simp [filterStep, h0]
  refine ⟨fun P_pred => ⟨hS P_pred, ?_, ?_⟩, fun y b P => ?_, hstep, ?_⟩
  · rw [hS]; exact ne_of_gt hVe
  · simp [gainK, innovationS]
  · simp [onlineUpdate]
  · intro y0 x0 ys xs res t yt h hz
    simp only [filterRun, Option.some.injEq] at h
    subst h
    cases t with
    | zero =>
      rcases hl : ys.zip xs with _ | ⟨obs, tl⟩
      · rw [hl] at hz; simp at hz
      · rw [hl] at hz
        simp only [List.get?, Option.some.injEq] at hz
        subst hz
        simp [hl, filterAux, hstep _ _ (yt, 0) rfl]
    | succ j =>
      obtain ⟨hlen, -⟩ := List.get?_eq_some.mp hz
      have hjlt : j < (filterAux k k.initial_mean k.initial_cov
          (ys.zip xs)).length := by
        rw [filterAux_length]; omega
      obtain ⟨r, hr⟩ : ∃ r, (filterAux k k.initial_mean k.initial_cov
          (ys.zip xs)).get? j = some r :=
        ⟨_, List.get?_eq_get hjlt⟩
      simp only [List.get?]
      rw [List.get?_map, List.get?_map, filterAux_get_succ, hr, hz]
      simp [hstep _ _ (yt, 0) rfl]

/-- Witness for C8 at a concrete configuration: observation noise 1, a step
with `x = 0`. -/
theorem kalman_zero_x_witness :
    innovationS (⟨1/2, 1, 0, 1⟩ : KalmanConfig ℚ) 0 5 = 1 ∧
    gainK (⟨1/2, 1, 0, 1⟩ : KalmanConfig ℚ) 0 5 = 0 ∧
    (onlineUpdate (⟨1/2, 1, 0, 1⟩ : KalmanConfig ℚ) 7 0 3 1).1 = 3 ∧
    (filterRun (⟨1/2, 1, 0, 1⟩ : KalmanConfig ℚ) [1, 2] [1, 0]).map
        (fun r => r.beta.get? 1) =
      (filterRun (⟨1/2, 1, 0, 1⟩ : KalmanConfig ℚ) [1, 2] [1, 0]).map
        (fun r => r.beta.get? 0) := by
  have h := kalman_zero_x (⟨1/2, 1, 0, 1⟩ : KalmanConfig ℚ) (by norm_num)
  refine ⟨(h.1 5).1, (h.1 5).2.2, h.2.1 7 3 1, ?_⟩
  have hres := h.2.2.2 1 1 [2] [0] _ 0 2 rfl rfl
  exact congrArg some hres

/-- Column `hedge_ratio_std` of the results frame (`kalman.py` line 45): the
elementwise square root of the variance path.  Kept as a derived column
because the square root is specific to `ℝ` while the recursion itself is
field-generic. -/
noncomputable def stdColumn (res : FilterResult ℝ) : List ℝ :=
  res.P.map Real.sqrt

/-- C10: the first row of `filter`'s output is exactly the configured prior:
hedge `initial_mean`, standard deviation `sqrt initial_cov`, forecast error 0,
and spread `y₀ - initial_mean·x₀`; and the first observation is never used to
update the state (the `beta`, `P` and forecast-error paths do not depend on
it), updates beginning only at the second step. -/
theorem filter_first_row (k : KalmanConfig ℝ) (y0 x0 : ℝ) (ys xs : List ℝ)
    (res : FilterResult ℝ) (h : filterRun k (y0 :: ys) (x0 :: xs) = some res) :
    res.beta.head? = some k.initial_mean ∧
    (stdColumn res).head? = some (Real.sqrt k.initial_cov) ∧
    res.forecastError.head? = some 0 ∧
    res.spread.head? = some (y0 - k.initial_mean * x0) ∧
    ∀ y0a x0a : ℝ, ∃ resa : FilterResult ℝ,
      filterRun k (y0a :: ys) (x0a :: xs) = some resa ∧
      resa.beta = res.beta ∧ resa.P = res.P ∧
      resa.forecastError = res.forecastError := by
  simp only [filterRun, Option.some.injEq] at h
  subst h
  refine ⟨rfl, rfl, rfl, by simp, ?_⟩
  intro y0a x0a
  exact ⟨_, rfl, rfl, rfl, rfl⟩

/-- Witness for C10 at a concrete configuration and one-observation series. -/
theorem filter_first_row_witness :
    (filterRun (⟨1/2, 1, 0, 1⟩ : KalmanConfig ℝ) [3] [2]).map
        (fun r => (r.beta.head?, (stdColumn r).head?, r.forecastError.head?,
          r.spread.head?)) =
      some (some 0, some 1, some 0, some 3) := by
  have h := filter_first_row (⟨1/2, 1, 0, 1⟩ : KalmanConfig ℝ) 3 2 [] [] _ rfl
  have hcast : Option.map
      (fun r : FilterResult ℝ => (r.beta.head?, (stdColumn r).head?,
        r.forecastError.head?, r.spread.head?))
      (filterRun (⟨1/2, 1, 0, 1⟩ : KalmanConfig ℝ) [3] [2]) =
      some (some (0 : ℝ), some (Real.sqrt 1), some (0 : ℝ),
        some ((3 : ℝ) - 0 * 2)) := by
    exact congrArg some (by
      rw [Prod.mk.injEq, Prod.mk.injEq, Prod.mk.injEq]
      exact ⟨h.1, h.2.1, h.2.2.1, h.2.2.2.1⟩)
  rw [hcast, Real.sqrt_one]
  norm_num

/-- Threshold configuration of `ZScoreSignalGenerator`
(`zscore.py` lines 29-36). -/
structure ZConfig (α : Type) where
  entry_z : α
  exit_z : α
  stop_z : α

/-- One evaluation of the transition block of the `generate_signals` loop
(`zscore.py` lines 66-76) on a defined z-score `z`, from the carried
`position`. -/
def sigStep (c : ZConfig α) (position : ℤ) (z : α) : ℤ :=
  if position = 0 then
    if z < -c.entry_z then 1
    else if z > c.entry_z then -1
    else 0
  else if position = 1 then
    if z > -c.exit_z ∨ z > c.stop_z then 0 else position
  else if position = -1 then
    if z < c.exit_z ∨ z < -c.stop_z then 0 else position
  else position

/-- The `for i in range(1, len(signals))` loop of `generate_signals`
(`zscore.py` lines 60-78), emitting the recorded `position` column entries for
rows 1..n-1.  On a `NaN` z-score the body is skipped by `continue`: the
carried `position` variable is unchanged but the row keeps the value 0 it was
initialised with at line 58, because the write at line 78 is skipped too. -/
def sigLoop (c : ZConfig α) (position : ℤ) : List (Option α) → List ℤ
  | [] => []
  | none :: rest => 0 :: sigLoop c position rest
  | some z :: rest =>
    sigStep c position z :: sigLoop c (sigStep c position z) rest

/-- Final value of the carried `position` variable after consuming a z path
(the loop of lines 60-78 viewed through its internal state only). -/
def sigLoopState (c : ZConfig α) (position : ℤ) : List (Option α) → ℤ
  | [] => position
  | none :: rest => sigLoopState c position rest
  | some z :: rest => sigLoopState c (sigStep c position z) rest

/-- The recorded `position` column of `generate_signals`: row 0 keeps the
initial fill 0 (the loop starts at index 1 and row 0's z-score is never read);
`zs` is the z-score column produced by `compute_zscore`, whose entries are
undefined (`NaN`, here `none`) on warm-up rows — the rolling/exponential
standard deviation of fewer than two observations — and wherever the inputs
have missing values. -/
def positionsColumn (c : ZConfig α) (zs : List (Option α)) : List ℤ :=
  match zs with
  | [] => []
  | _ :: rest => 0 :: sigLoop c 0 rest

/-- Embeds `np.clip(v, 0, 1)`. -/
def clip01 (v : α) : α := min (max v 0) 1

/-- The `confidence` column (`zscore.py` lines 80-82):
`np.clip((|z| - exit_z) / (entry_z - exit_z), 0, 1)`, undefined where the
z-score is undefined (every `np` operation propagates `NaN`, and
`np.clip` of `NaN` is `NaN`). -/
def confidenceColumn (c : ZConfig α) (zs : List (Option α)) : List (Option α) :=
  zs.map (Option.map fun z => clip01 ((|z| - c.exit_z) / (c.entry_z - c.exit_z)))

/-- The columns of the `generate_signals` output frame the claims refer to. -/
structure SignalsResult (α : Type) where
  position : List ℤ
  confidence : List (Option α)

/-- Embeds `ZScoreSignalGenerator.generate_signals` (`zscore.py` lines 50-83),
modelled on the z-score column: the `spread`/`zscore` computation of lines
52-53 feeds the loop only through that column, which is taken as the input
here. -/
def generateSignals (c : ZConfig α) (zs : List (Option α)) : SignalsResult α :=
  ⟨positionsColumn c zs, confidenceColumn c zs⟩

theorem sigLoop_append (c : ZConfig α) (p : ℤ) (a b : List (Option α)) :
    sigLoop c p (a ++ b) = sigLoop c p a ++ sigLoop c (sigLoopState c p a) b := by
  induction a generalizing p with
  | nil => rfl
  | cons o rest ih => cases o <;> simp [sigLoop, sigLoopState, ih]

theorem sigLoop_of_fix (c : ZConfig α) (p : ℤ) (l : List α)
    (h : ∀ z ∈ l, sigStep c p z = p) :
    sigLoop c p (l.map some) = List.replicate l.length p ∧
    sigLoopState c p (l.map some) = p := by
  induction l with
  | nil => exact ⟨rfl, rfl⟩
  | cons z rest ih =>
    have hz := h z (by simp)
    have ihr := ih (fun w hw => h w (by simp [hw]))
    simp [sigLoop, sigLoopState, hz, ihr.1, ihr.2, List.replicate_succ]

theorem sigLoop_phase (c : ZConfig α) (p q : ℤ) (z0 : α) (rest : List α)
    (h0 : sigStep c p z0 = q) (hfix : ∀ z ∈ rest, sigStep c q z = q) :
    sigLoop c p ((z0 :: rest).map some) =
      List.replicate (z0 :: rest).length q ∧
    sigLoopState c p ((z0 :: rest).map some) = q := by
  have hr := sigLoop_of_fix c q rest hfix
  simp [sigLoop, sigLoopState, h0, hr.1, hr.2, List.replicate_succ]

theorem sigStep_flat_stay (c : ZConfig α) {z : α} (h1 : -c.entry_z ≤ z)
    (h2 : z ≤ c.entry_z) : sigStep c 0 z = 0 := by
  simp [sigStep, not_lt.mpr h1, not_lt.mpr h2]

theorem sigStep_flat_to_short (c : ZConfig α) {z : α} (hpos : 0 < c.entry_z)
    (h : c.entry_z < z) : sigStep c 0 z = -1 := by
  have h1 : ¬ z < -c.entry_z := not_lt.mpr (by nlinarith)
  simp [sigStep, h1, h]

theorem sigStep_short_stay (c : ZConfig α) {z : α} (h0e : 0 ≤ c.exit_z)
    (hee : c.exit_z < c.entry_z) (hes : c.entry_z < c.stop_z)
    (hz : c.entry_z < z) : sigStep c (-1) z = -1 := by
  have h1 : ¬ z < c.exit_z := not_lt.mpr (by nlinarith)
  have h2 : ¬ z < -c.stop_z := not_lt.mpr (by nlinarith)
  simp [sigStep, h1, h2]

theorem sigStep_short_exit (c : ZConfig α) {z : α} (h : z < c.exit_z) :
    sigStep c (-1) z = 0 := by
  simp [sigStep, h]

/-- Positions produced on a phased z path: flat band, above-entry phase,
below-exit phase, above-stop phase. -/
theorem scenario_positions (c : ZConfig α) (h0e : 0 ≤ c.exit_z)
    (hee : c.exit_z < c.entry_z) (hes : c.entry_z < c.stop_z)
    (p0 p1 p2 p3 : List α)
    (hp0 : ∀ z ∈ p0, -c.entry_z ≤ z ∧ z ≤ c.entry_z)
    (hp1 : ∀ z ∈ p1, c.entry_z < z)
    (hp2 : ∀ z ∈ p2, -c.entry_z ≤ z ∧ z < c.exit_z)
    (hp3 : ∀ z ∈ p3, c.stop_z < z)
    (n1 : p1 ≠ []) (n2 : p2 ≠ []) (n3 : p3 ≠ []) :
    sigLoop c 0 ((p0 ++ p1 ++ p2 ++ p3).map some) =
      List.replicate p0.length 0 ++ List.replicate p1.length (-1) ++
      List.replicate p2.length 0 ++ List.replicate p3.length (-1) := by
  have hpos : 0 < c.entry_z := lt_of_le_of_lt h0e hee
  rcases List.exists_cons_of_ne_nil n1 with ⟨w1, t1, rfl⟩
  rcases List.exists_cons_of_ne_nil n2 with ⟨w2, t2, rfl⟩
  rcases List.exists_cons_of_ne_nil n3 with ⟨w3, t3, rfl⟩
  have h0 := sigLoop_of_fix c 0 p0
    (fun z hz => sigStep_flat_stay c (hp0 z hz).1 (hp0 z hz).2)
  have h1 := sigLoop_phase c 0 (-1) w1 t1
    (sigStep_flat_to_short c hpos (hp1 w1 (by simp)))
    (fun z hz => sigStep_short_stay c h0e hee hes (hp1 z (by simp [hz])))
  have h2 := sigLoop_phase c (-1) 0 w2 t2
    (sigStep_short_exit c (hp2 w2 (by simp)).2)
    (fun z hz => sigStep_flat_stay c (hp2 z (by simp [hz])).1
      (le_of_lt (lt_trans (hp2 z (by simp [hz])).2 hee)))
  have h3 := sigLoop_phase c 0 (-1) w3 t3
    (sigStep_flat_to_short c hpos (lt_trans hes (hp3 w3 (by simp))))
    (fun z hz => sigStep_short_stay c h0e hee hes
      (lt_trans hes (hp3 z (by simp [hz]))))
  simp only [List.append_assoc, List.map_append, sigLoop_append,
    h0.1, h0.2, h1.1, h1.2, h2.1, h2.2, h3.1, h3.2]

theorem sigStep_mem_of (c : ZConfig α) (h0e : 0 ≤ c.exit_z)
    (hee : c.exit_z < c.entry_z) {p : ℤ} (hp : p = 0 ∨ p = -1) {z : α}
    (hz : -c.entry_z ≤ z) : sigStep c p z = 0 ∨ sigStep c p z = -1 := by
  rcases hp with rfl | rfl
  · by_cases h : z > c.entry_z
    · right; simp [sigStep, not_lt.mpr hz, h]
    · left; simp [sigStep, not_lt.mpr hz, h]
  · by_cases h : z < c.exit_z ∨ z < -c.stop_z
    · left; simp [sigStep, h]
    · right; simp [sigStep, h]

theorem sigStep_band (c : ZConfig α) (h0e : 0 ≤ c.exit_z)
    (hee : c.exit_z < c.entry_z) (hes : c.entry_z < c.stop_z) {p : ℤ}
    (hp : p = 0 ∨ p = -1) {z : α} (hz1 : c.exit_z < z) (hz2 : z < c.entry_z) :
    sigStep c p z = p := by
  rcases hp with rfl | rfl
  · exact sigStep_flat_stay c (by nlinarith) (le_of_lt hz2)
  · have h1 : ¬ z < c.exit_z := not_lt.mpr (le_of_lt hz1)
    have h2 : ¬ z < -c.stop_z := not_lt.mpr (by nlinarith)
    simp [sigStep, h1, h2]

/-- On any all-defined z path whose values never go below `-entry_z`, starting
flat or short, the recorded position never changes at a step whose z-score
lies strictly between `exit_z` and `entry_z`. -/
theorem band_no_change (c : ZConfig α) (h0e : 0 ≤ c.exit_z)
    (hee : c.exit_z < c.entry_z) (hes : c.entry_z < c.stop_z) (p : ℤ)
    (hp : p = 0 ∨ p = -1) (l : List α) (hl : ∀ z ∈ l, -c.entry_z ≤ z) :
    ∀ t ∈ ((p :: sigLoop c p (l.map some)).zip
        (sigLoop c p (l.map some))).zip l,
      c.exit_z < t.2 → t.2 < c.entry_z → t.1.1 = t.1.2 := by
  induction l generalizing p with
  | nil => simp [sigLoop]
  | cons z rest ih =>
    intro t ht h1 h2
    simp only [List.map_cons, sigLoop, List.zip_cons_cons, List.mem_cons] at ht
    rcases ht with rfl | ht
    · exact (sigStep_band c h0e hee hes hp h1 h2).symm
    · have hq := sigStep_mem_of c h0e hee hp (hl z (by simp))
      exact ih (sigStep c p z) hq (fun w hw => hl w (by simp [hw])) t ht h1 h2

/-- C3 (amended): on a z path that stays in the flat band, then rises above
`entry_z`, then falls below `exit_z`, then rises above `stop_z`
(thresholds `0 ≤ exit_z < entry_z < stop_z`), the recorded positions are
Flat, then ShortSpread, then Flat, then ShortSpread again: the machine
re-enters short when z exceeds `stop_z > entry_z` while flat.  Moreover the
position never changes at a step whose z-score lies strictly between
`exit_z` and `entry_z`. -/
theorem hysteresis_phase_path (c : ZConfig α) (h0e : 0 ≤ c.exit_z)
    (hee : c.exit_z < c.entry_z) (hes : c.entry_z < c.stop_z)
    (z0 : Option α) (p0 p1 p2 p3 : List α)
    (hp0 : ∀ z ∈ p0, -c.entry_z ≤ z ∧ z ≤ c.entry_z)
    (hp1 : ∀ z ∈ p1, c.entry_z < z)
    (hp2 : ∀ z ∈ p2, -c.entry_z ≤ z ∧ z < c.exit_z)
    (hp3 : ∀ z ∈ p3, c.stop_z < z)
    (n1 : p1 ≠ []) (n2 : p2 ≠ []) (n3 : p3 ≠ []) :
    positionsColumn c (z0 :: (p0 ++ p1 ++ p2 ++ p3).map some) =
      0 :: (List.replicate p0.length 0 ++ List.replicate p1.length (-1) ++
        List.replicate p2.length 0 ++ List.replicate p3.length (-1)) ∧
    ∀ t ∈ (((0 : ℤ) :: sigLoop c 0 ((p0 ++ p1 ++ p2 ++ p3).map some)).zip
        (sigLoop c 0 ((p0 ++ p1 ++ p2 ++ p3).map some))).zip
        (p0 ++ p1 ++ p2 ++ p3),
      c.exit_z < t.2 → t.2 < c.entry_z → t.1.1 = t.1.2 := by
  have hpos : 0 < c.entry_z := lt_of_le_of_lt h0e hee
  constructor
  · rw [positionsColumn]
    rw [scenario_positions c h0e hee hes p0 p1 p2 p3 hp0 hp1 hp2 hp3 n1 n2 n3]
  · refine band_no_change c h0e hee hes 0 (Or.inl rfl) _ ?_
    intro z hz
    simp only [List.mem_append] at hz
    rcases hz with ((hz | hz) | hz) | hz
    · exact (hp0 z hz).1
    · nlinarith [hp1 z hz]
    · exact (hp2 z hz).1
    · nlinarith [hp3 z hz]

/-- Witness for C3 (amended) on a concrete phased path. -/
theorem hysteresis_phase_path_witness :
    positionsColumn (⟨2, 1, 4⟩ : ZConfig ℚ)
        [some 0, some 1, some 3, some 0, some 5] = [0, 0, -1, 0, -1] := by
  have h := (hysteresis_phase_path (⟨2, 1, 4⟩ : ZConfig ℚ) (by norm_num)
    (by norm_num) (by norm_num) (some 0) [1] [3] [0] [5]
    (by decide) (by decide) (by decide) (by decide)
    (by decide) (by decide) (by decide)).1
  simpa using h

/-- Consecutive position pairs that change (the transitions shown by a
position sequence). -/
def posChanges (l : List ℤ) : List (ℤ × ℤ) :=
  (l.zip l.tail).filter fun pr => decide (pr.1 ≠ pr.2)

/-- C3 (counterexample to the claim as stated): on the z path
0, 5/2, 1/4, 4 with thresholds entry 2, exit 1/2, stop 7/2 — which rises
above `entry_z`, then falls below `exit_z`, then rises above `stop_z` — the
recorded transitions are Flat→Short→Flat→Short, not exactly
Flat→Short→Flat. -/
theorem hysteresis_reentry_after_stop :
    ((3 : ℚ) > 2 ∧ (0 : ℚ) < 1 ∧ (5 : ℚ) > 4) ∧
    posChanges (positionsColumn (⟨2, 1, 4⟩ : ZConfig ℚ)
        [some 0, some 3, some 0, some 5]) =
      [(0, -1), (-1, 0), (0, -1)] ∧
    posChanges (positionsColumn (⟨2, 1, 4⟩ : ZConfig ℚ)
        [some 0, some 3, some 0, some 5]) ≠
      [(0, -1), (-1, 0)] := by decide

/-- C4: evaluation of `generate_signals` at a failing input.  With entry 2
the machine goes short on z = 3, and on the following undefined (`NaN`)
z-score the recorded position drops back to the initial fill 0 — it does not
equal the previous recorded position -1 — even though the loop's carried
`position` variable still holds -1 (the `continue` at line 64 skips the
write at line 78). -/
theorem nan_step_resets_position :
    positionsColumn (⟨2, 1, 4⟩ : ZConfig ℚ) [some 0, some 3, none] =
      [0, -1, 0] ∧
    (positionsColumn (⟨2, 1, 4⟩ : ZConfig ℚ)
        [some 0, some 3, none]).get? 2 ≠
      (positionsColumn (⟨2, 1, 4⟩ : ZConfig ℚ)
        [some 0, some 3, none]).get? 1 ∧
    sigLoopState (⟨2, 1, 4⟩ : ZConfig ℚ) 0 [some 3, none] = -1 := by
  decide

/-- C9 (amended): the confidence column is exactly
`clip((|z| - exit_z)/(entry_z - exit_z), 0, 1)` applied entrywise (undefined
where the z-score is undefined), and every defined confidence value lies in
`[0, 1]`. -/
theorem confidence_clip_bounds (c : ZConfig α) (zs : List (Option α)) :
    (generateSignals c zs).confidence =
      zs.map (Option.map fun z =>
        clip01 ((|z| - c.exit_z) / (c.entry_z - c.exit_z))) ∧
    ∀ o ∈ (generateSignals c zs).confidence, ∀ v, o = some v →
      0 ≤ v ∧ v ≤ 1 := by
  refine ⟨rfl, ?_⟩
  intro o ho v hv
  subst hv
  simp only [generateSignals, confidenceColumn, List.mem_map] at ho
  rcases ho with ⟨z, _, hz⟩
  cases z with
  | none => exact Option.noConfusion hz
  | some w =>
    simp only [Option.map_some'] at hz
    rcases Option.some.inj hz with rfl
    exact ⟨le_min (le_max_right _ _) zero_le_one, min_le_right _ _⟩

/-- Witness for C9 (amended) at a concrete defined z value. -/
theorem confidence_clip_bounds_witness :
    (generateSignals (⟨2, 1, 4⟩ : ZConfig ℚ) [some 3]).confidence =
      [some 1] ∧ (0 ≤ (1 : ℚ) ∧ (1 : ℚ) ≤ 1) := by
  have hconf : (generateSignals (⟨2, 1, 4⟩ : ZConfig ℚ) [some 3]).confidence =
      [some 1] := by
    simp only [generateSignals, confidenceColumn, List.map_cons, List.map_nil,
      Option.map_some']
    norm_num [clip01]
  refine ⟨hconf, (confidence_clip_bounds (⟨2, 1, 4⟩ : ZConfig ℚ)
    [some 3]).2 (some 1) (by rw [hconf]; exact List.mem_singleton.mpr rfl)
    1 rfl⟩

/-- C9 (counterexample to the claim as stated): on a path whose z-score is
undefined at some step (for instance the very first row, where the rolling or
exponentially-weighted standard deviation of a single observation is
undefined), the confidence entry is undefined (`NaN`) — there is no value in
`[0, 1]` it equals. -/
theorem confidence_of_undefined_z :
    (generateSignals (⟨2, 1, 4⟩ : ZConfig ℚ) [none]).confidence =
      [none] ∧
    ¬ ∃ v : ℚ, (none : Option ℚ) = some v ∧ 0 ≤ v ∧ v ≤ 1 := by
  refine ⟨rfl, ?_⟩
  rintro ⟨v, hv, -⟩
  exact Option.noConfusion hv

theorem zipWith_get? {A B C : Type} (f : A → B → C) (a : List A) (b : List B)
    (i : ℕ) :
    (List.zipWith f a b).get? i = (a.get? i).bind fun u => (b.get? i).map (f u) := by
  induction a generalizing b i with
  | nil => simp
  | cons u us ih =>
    cases b with
    | nil => simp
    | cons v vs =>
      cases i with
      | zero => simp
      | succ j => simpa using ih vs j

theorem take_get? {A : Type} {a b : List A} {n : ℕ}
    (h : a.take n = b.take n) {s : ℕ} (hs : s < n) : a.get? s = b.get? s := by
  induction a generalizing b n s with
  | nil =>
    cases b with
    | nil => rfl
    | cons v vs =>
      cases n with
      | zero => omega
      | succ m => simp at h
  | cons u us ih =>
    cases b with
    | nil =>
      cases n with
      | zero => omega
      | succ m => simp at h
    | cons v vs =>
      cases n with
      | zero => omega
      | succ m =>
        simp only [List.take_succ_cons, List.cons.injEq] at h
        cases s with
        | zero => simp [h.1]
        | succ j => simpa using ih h.2 (by omega)

/-- Embeds `Series.pct_change()` (used at `zscore.py` line 88): entry 0 is undefined,
entry t is `cur / prev - 1` (pandas computes `series / series.shift(1) - 1`). -/
def pctChange (l : List α) : List (Option α) :=
  match l with
  | [] => []
  | _ :: _ =>
    none :: List.zipWith (fun prev cur => some (cur / prev - 1)) l l.tail

/-- Embeds `Series.shift(1)` (line 89): entry 0 undefined, entry t is entry t-1. -/
def shiftOne {A : Type} (l : List A) : List (Option A) :=
  match l with
  | [] => []
  | _ :: _ => none :: List.zipWith (fun prev _ => some prev) l l.tail

/-- Embeds `Series.diff()` (line 90): entry 0 undefined, entry t is `cur - prev`. -/
def diffOne (l : List α) : List (Option α) :=
  match l with
  | [] => []
  | _ :: _ => none :: List.zipWith (fun prev cur => some (cur - prev)) l l.tail

/-- Embeds `NaN`-propagating binary arithmetic on two series, entrywise. -/
def o2 (f : α → α → α) : Option α → Option α → Option α
  | some a, some b => some (f a b)
  | _, _ => none

/-- Embeds `Series.cumprod()` with pandas' default `skipna=True` (line 92): an
undefined entry stays undefined and does not update the running product. -/
def cumprodSkip (acc : α) : List (Option α) → List (Option α)
  | [] => []
  | none :: rest => none :: cumprodSkip acc rest
  | some v :: rest => some (acc * v) :: cumprodSkip (acc * v) rest

/-- The columns of the frame built by `compute_signal_pnl`
(`zscore.py` lines 87-92). -/
structure PnLFrame (α : Type) where
  strategyReturn : List (Option α)
  transactionCosts : List (Option α)
  netReturn : List (Option α)
  cumulativeReturn : List (Option α)

/-- Embeds `ZScoreSignalGenerator.compute_signal_pnl` (`zscore.py` lines 85-93).
`pos` is the `position` column of the signals frame (discrete positions,
embedded as field elements since all the P&L arithmetic is numeric), `h` the
hedge ratio argument, `tc_bps` the cost in basis points. -/
def computeSignalPnl (pos y x : List α) (h tc_bps : α) : PnLFrame α :=
  let spread_ret := List.zipWith (o2 fun ry rx => ry - h * rx)
    (pctChange y) (pctChange x)
  let strat := List.zipWith (o2 fun p r => p * r) (shiftOne pos) spread_ret
  let costs := (diffOne pos).map (Option.map fun d => |d| * tc_bps / 10000)
  let net := List.zipWith (o2 fun a b => a - b) strat costs
  ⟨strat, costs, net, cumprodSkip 1 (net.map (Option.map fun r => 1 + r))⟩

theorem strat_col (pos y x : List α) (h tc : α) :
    (computeSignalPnl pos y x h tc).strategyReturn =
      List.zipWith (o2 fun p r => p * r) (shiftOne pos)
        (List.zipWith (o2 fun ry rx => ry - h * rx)
          (pctChange y) (pctChange x)) := rfl

theorem costs_col (pos y x : List α) (h tc : α) :
    (computeSignalPnl pos y x h tc).transactionCosts =
      (diffOne pos).map (Option.map fun d => |d| * tc / 10000) := rfl

theorem net_col (pos y x : List α) (h tc : α) :
    (computeSignalPnl pos y x h tc).netReturn =
      List.zipWith (o2 fun a b => a - b)
        (computeSignalPnl pos y x h tc).strategyReturn
        (computeSignalPnl pos y x h tc).transactionCosts := rfl

theorem cum_col (pos y x : List α) (h tc : α) :
    (computeSignalPnl pos y x h tc).cumulativeReturn =
      cumprodSkip 1 ((computeSignalPnl pos y x h tc).netReturn.map
        (Option.map fun r => 1 + r)) := rfl

theorem pctChange_get_succ (l : List α) (t : ℕ) :
    (pctChange l).get? (t + 1) =
      (l.get? t).bind fun prev => (l.get? (t + 1)).map fun cur =>
        some (cur / prev - 1) := by
  rcases l with _ | ⟨a, as⟩
  · simp [pctChange]
  · simp only [pctChange, List.tail_cons, List.get?_cons_succ, zipWith_get?]

theorem shiftOne_get_succ {A : Type} (l : List A) (t : ℕ) :
    (shiftOne l).get? (t + 1) =
      (l.get? t).bind fun prev => (l.get? (t + 1)).map fun _ => some prev := by
  rcases l with _ | ⟨a, as⟩
  · simp [shiftOne]
  · simp only [shiftOne, List.tail_cons, List.get?_cons_succ, zipWith_get?]

theorem diffOne_get_succ (l : List α) (t : ℕ) :
    (diffOne l).get? (t + 1) =
      (l.get? t).bind fun prev => (l.get? (t + 1)).map fun cur =>
        some (cur - prev) := by
  rcases l with _ | ⟨a, as⟩
  · simp [diffOne]
  · simp only [diffOne, List.tail_cons, List.get?_cons_succ, zipWith_get?]

/-- The strategy-return column, entry by entry: defined from index 1 on
(whenever all the inputs it reads exist), and reading only the position at
t-1 and the prices at t-1 and t. -/
theorem strat_get (pos y x : List α) (h tc : α) (t : ℕ) :
    (computeSignalPnl pos y x h tc).strategyReturn.get? (t + 1) =
      (pos.get? t).bind fun p0 => (pos.get? (t + 1)).bind fun _ =>
      (y.get? t).bind fun y0 => (y.get? (t + 1)).bind fun y1 =>
      (x.get? t).bind fun x0 => (x.get? (t + 1)).map fun x1 =>
        some (p0 * (y1 / y0 - 1 - h * (x1 / x0 - 1))) := by
  rw [strat_col, zipWith_get?, zipWith_get?, shiftOne_get_succ,
    pctChange_get_succ, pctChange_get_succ]
  cases pos.get? t <;> cases pos.get? (t + 1) <;>
    cases y.get? t <;> cases y.get? (t + 1) <;>
    cases x.get? t <;> cases x.get? (t + 1) <;> rfl

/-- The transaction-cost column, entry by entry. -/
theorem costs_get (pos y x : List α) (h tc : α) (t : ℕ) :
    (computeSignalPnl pos y x h tc).transactionCosts.get? (t + 1) =
      (pos.get? t).bind fun p0 => (pos.get? (t + 1)).map fun p1 =>
        some (|p1 - p0| * tc / 10000) := by
  rw [costs_col, List.get?_map, diffOne_get_succ]
  cases pos.get? t <;> cases pos.get? (t + 1) <;> rfl

/-- The net-return column, entry by entry, from the other two columns. -/
theorem net_get_of (pos y x : List α) (h tc : α) (i : ℕ) :
    (computeSignalPnl pos y x h tc).netReturn.get? i =
      ((computeSignalPnl pos y x h tc).strategyReturn.get? i).bind fun oa =>
        ((computeSignalPnl pos y x h tc).transactionCosts.get? i).map fun ob =>
          o2 (fun a b => a - b) oa ob := by
  rw [net_col, zipWith_get?]

/-- The net-return column as a single pointwise formula of the inputs. -/
theorem net_get (pos y x : List α) (h tc : α) (t : ℕ) :
    (computeSignalPnl pos y x h tc).netReturn.get? (t + 1) =
      (pos.get? t).bind fun p0 => (pos.get? (t + 1)).bind fun p1 =>
      (y.get? t).bind fun y0 => (y.get? (t + 1)).bind fun y1 =>
      (x.get? t).bind fun x0 => (x.get? (t + 1)).map fun x1 =>
        some (p0 * (y1 / y0 - 1 - h * (x1 / x0 - 1)) -
          |p1 - p0| * tc / 10000) := by
  rw [net_get_of, strat_get, costs_get]
  cases pos.get? t <;> cases pos.get? (t + 1) <;>
    cases y.get? t <;> cases y.get? (t + 1) <;>
    cases x.get? t <;> cases x.get? (t + 1) <;> rfl

theorem net_get_zero (pos y x : List α) (h tc : α) (hp : pos ≠ [])
    (hy : y ≠ []) (hx : x ≠ []) :
    (computeSignalPnl pos y x h tc).netReturn.get? 0 = some none := by
  rcases List.exists_cons_of_ne_nil hp with ⟨p, ps, rfl⟩
  rcases List.exists_cons_of_ne_nil hy with ⟨a, as, rfl⟩
  rcases List.exists_cons_of_ne_nil hx with ⟨b, bs, rfl⟩
  rfl

theorem net_nonempty_inputs (pos y x : List α) (h tc : α) (i : ℕ) (o : Option α)
    (hv : (computeSignalPnl pos y x h tc).netReturn.get? i = some o) :
    pos ≠ [] ∧ y ≠ [] ∧ x ≠ [] := by
  refine ⟨?_, ?_, ?_⟩ <;> rintro rfl <;>
    rw [net_col] at hv
  · rw [strat_col] at hv
    simp [shiftOne] at hv
  · rw [strat_col] at hv
    simp [pctChange] at hv
  · rw [strat_col] at hv
    simp [pctChange] at hv

theorem cumprodSkip_get_zero (acc v : α) (l : List (Option α))
    (h : l.get? 0 = some (some v)) :
    (cumprodSkip acc l).get? 0 = some (some (acc * v)) := by
  rcases l with _ | ⟨o, rest⟩
  · simp at h
  · cases o with
    | none => simp at h
    | some w =>
      simp only [List.get?, Option.some.injEq] at h
      rcases h with rfl
      rfl

theorem cumprodSkip_get_one (acc v : α) (l : List (Option α))
    (h0 : l.get? 0 = some none) (h1 : l.get? 1 = some (some v)) :
    (cumprodSkip acc l).get? 1 = some (some (acc * v)) := by
  rcases l with _ | ⟨o, rest⟩
  · simp at h0
  · cases o with
    | some w => simp at h0
    | none =>
      have hdef : cumprodSkip acc (none :: rest) = none :: cumprodSkip acc rest :=
        rfl
      rw [hdef]
      simp only [List.get?] at h1 ⊢
      exact cumprodSkip_get_zero acc v rest h1

/-- The running-product invariant of `cumprod(skipna=True)`: a defined output
entry equals the running accumulator, so the next defined entry multiplies
it. -/
theorem cumprodSkip_get_succ (acc : α) (l : List (Option α)) (i : ℕ) (c v : α)
    (hc : (cumprodSkip acc l).get? i = some (some c))
    (hv : l.get? (i + 1) = some (some v)) :
    (cumprodSkip acc l).get? (i + 1) = some (some (c * v)) := by
  induction l generalizing acc i with
  | nil => simp [cumprodSkip] at hc
  | cons o rest ih =>
    cases o with
    | none =>
      cases i with
      | zero => simp [cumprodSkip] at hc
      | succ j =>
        simp only [cumprodSkip, List.get?] at hc hv ⊢
        exact ih acc j hc hv
    | some w =>
      cases i with
      | zero =>
        simp only [cumprodSkip, List.get?, Option.some.injEq] at hc hv ⊢
        rcases hc with rfl
        exact cumprodSkip_get_zero _ v rest hv
      | succ j =>
        simp only [cumprodSkip, List.get?] at hc hv ⊢
        exact ih (acc * w) j hc hv

/-- C2: `compute_signal_pnl` satisfies, entry by entry: strategy return at t
is the position at t-1 times (pct-change of y minus hedge times pct-change of
x over [t-1, t]); transaction cost at t is |position[t] - position[t-1]| times
`tc_bps/10000`; net return is strategy return minus cost; cumulative return
is the running product of (1 + net return); and the net return at t depends
only on the inputs up to index t (no lookahead). -/
theorem pnl_formulas (pos y x : List α) (h tc : α) :
    (∀ (t : ℕ) (p0 p1 y0 y1 x0 x1 : α),
      pos.get? t = some p0 → pos.get? (t + 1) = some p1 →
      y.get? t = some y0 → y.get? (t + 1) = some y1 →
      x.get? t = some x0 → x.get? (t + 1) = some x1 →
      (computeSignalPnl pos y x h tc).strategyReturn.get? (t + 1) =
        some (some (p0 * (y1 / y0 - 1 - h * (x1 / x0 - 1)))) ∧
      (computeSignalPnl pos y x h tc).transactionCosts.get? (t + 1) =
        some (some (|p1 - p0| * tc / 10000))) ∧
    (∀ (i : ℕ) (a b : α),
      (computeSignalPnl pos y x h tc).strategyReturn.get? i = some (some a) →
      (computeSignalPnl pos y x h tc).transactionCosts.get? i = some (some b) →
      (computeSignalPnl pos y x h tc).netReturn.get? i = some (some (a - b))) ∧
    (∀ v1 : α,
      (computeSignalPnl pos y x h tc).netReturn.get? 1 = some (some v1) →
      (computeSignalPnl pos y x h tc).cumulativeReturn.get? 1 =
        some (some (1 * (1 + v1)))) ∧
    (∀ (i : ℕ) (c v : α),
      (computeSignalPnl pos y x h tc).cumulativeReturn.get? i = some (some c) →
      (computeSignalPnl pos y x h tc).netReturn.get? (i + 1) = some (some v) →
      (computeSignalPnl pos y x h tc).cumulativeReturn.get? (i + 1) =
        some (some (c * (1 + v)))) ∧
    (∀ (t : ℕ) (pos2 y2 x2 : List α),
      pos2.take (t + 2) = pos.take (t + 2) → y2.take (t + 2) = y.take (t + 2) →
      x2.take (t + 2) = x.take (t + 2) →
      (computeSignalPnl pos2 y2 x2 h tc).netReturn.get? (t + 1) =
        (computeSignalPnl pos y x h tc).netReturn.get? (t + 1)) := by
  refine ⟨?_, ?_, ?_, ?_, ?_⟩
  · intro t p0 p1 y0 y1 x0 x1 hp0 hp1 hy0 hy1 hx0 hx1
    rw [strat_get, costs_get, hp0, hp1, hy0, hy1, hx0, hx1]
    exact ⟨rfl, rfl⟩
  · intro i a b ha hb
    rw [net_get_of, ha, hb]
    rfl
  · intro v1 hv1
    obtain ⟨hp, hy, hx⟩ := net_nonempty_inputs pos y x h tc 1 _ hv1
    rw [cum_col]
    refine cumprodSkip_get_one 1 (1 + v1) _ ?_ ?_
    · rw [List.get?_map, net_get_zero pos y x h tc hp hy hx]
      rfl
    · rw [List.get?_map, hv1]
      rfl
  · intro i c v hc hv
    rw [cum_col]
    refine cumprodSkip_get_succ 1 _ i c (1 + v) ?_ ?_
    · rw [cum_col] at hc
      exact hc
    · rw [List.get?_map, hv]
      rfl
  · intro t pos2 y2 x2 hp hy hx
    rw [net_get, net_get]
    rw [take_get? hp (by omega), take_get? hp (by omega),
      take_get? hy (by omega), take_get? hy (by omega),
      take_get? hx (by omega), take_get? hx (by omega)]

/-- Witness for C2 on concrete series: positions 0, 1, 1; prices
y = 1, 2, 4 and x = 1, 1, 2; hedge 1, cost 0. -/
theorem pnl_formulas_witness :
    (computeSignalPnl [0, 1, 1] [1, 2, 4] [1, 1, 2] 1 0 : PnLFrame ℚ
      ).strategyReturn.get? 2 = some (some (1 * (4 / 2 - 1 - 1 * (2 / 1 - 1)))) ∧
    (computeSignalPnl [0, 1, 1] [1, 2, 4] [1, 1, 2] 1 0 : PnLFrame ℚ
      ).transactionCosts.get? 2 = some (some (|(1 : ℚ) - 1| * 0 / 10000)) := by
  have h := (pnl_formulas ([0, 1, 1] : List ℚ) [1, 2, 4] [1, 1, 2] 1 0).1
  exact h 1 1 1 2 4 1 2 rfl rfl rfl rfl rfl rfl

/-- Least-squares slope θ of regressing the one-step spread differences on
the design `[1, lagged spread]` — the closed form (normal equations) of the
`np.linalg.lstsq` call in `estimate_half_life` (`tester.py` lines 56-59), in
the full-rank case.  Model: `delta_spread(t) = theta * spread(t-1) + eps`. -/
noncomputable def halfLifeTheta (spread : List ℝ) : ℝ :=
  let lag := spread.dropLast
  let d := List.zipWith (fun prev cur => cur - prev) spread spread.tail
  let n : ℝ := lag.length
  let sx := lag.sum
  let sy := d.sum
  let sxx := (lag.map fun v => v * v).sum
  let sxy := (List.zipWith (fun a b => a * b) lag d).sum
  (n * sxy - sx * sy) / (n * sxx - sx * sx)

/-- Embeds `CointegrationTester.estimate_half_life` (`tester.py` lines 50-63):
`np.inf` (`⊤` here) when θ ≥ 0, else `-np.log(2) / theta`. -/
noncomputable def estimateHalfLife (spread : List ℝ) : WithTop ℝ :=
  if 0 ≤ halfLifeTheta spread then ⊤
  else ↑(-Real.log 2 / halfLifeTheta spread)

/-- Constructor arguments of `CointegrationTester` (`tester.py` lines 22-28). -/
structure ScreenConfig where
  significance : ℝ
  min_half_life : ℝ
  max_half_life : ℝ
  min_correlation : ℝ
  rolling_window : ℕ

/-- The fields of the `engle_granger_test` result dict (`tester.py` lines
43-48) read by the screening loop; `hedge` and `intercept` are the entries
named `hedge_ratio` and `intercept` there. -/
structure EGData where
  coint_pvalue : ℝ
  adf_pvalue : ℝ
  hedge : ℝ
  intercept : ℝ

/-- One candidate pair as the `screen_universe` loop sees it (`tester.py`
lines 71-95): the correlation-matrix entry for the pair, the length of the
common index, the outcome of the `engle_granger_test` call (`.error` = that
call raised; lines 84-88 wrap it in `try`/`except`), and the outcome of the
`estimate_half_life` call on the resulting spread (`.error` = the
`np.linalg.lstsq` inside it raised; this call at line 93 is NOT inside the
`try`).  The statistical kernels themselves (statsmodels, numpy) are external
collaborators, so their outcomes are data here. -/
structure Candidate where
  corr : ℝ
  overlap : ℕ
  eg : Except String EGData
  hl : Except String (WithTop ℝ)

/-- An element of the `valid_pairs` list (`tester.py` lines 97-104). -/
structure PairResult where
  hedge : ℝ
  intercept : ℝ
  coint_pvalue : ℝ
  adf_pvalue : ℝ
  half_life : WithTop ℝ
  corr : ℝ

/-- One iteration of the `screen_universe` loop body (`tester.py` lines
72-104): `.ok none` = the pair is skipped (`continue`), `.ok (some r)` = `r`
is appended to `valid_pairs`, `.error` = an uncaught exception aborts the
whole pass. -/
noncomputable def screenStep (cfg : ScreenConfig) (c : Candidate) :
    Except String (Option PairResult) :=
  if |c.corr| < cfg.min_correlation then .ok none
  else if c.overlap < cfg.rolling_window then .ok none
  else
    match c.eg with
    | .error _ => .ok none
    | .ok d =>
      if cfg.significance < d.coint_pvalue then .ok none
      else
        match c.hl with
        | .error e => .error e
        | .ok hl =>
          if (cfg.min_half_life : WithTop ℝ) ≤ hl ∧
              hl ≤ (cfg.max_half_life : WithTop ℝ) then
            .ok (some ⟨d.hedge, d.intercept, d.coint_pvalue, d.adf_pvalue,
              hl, c.corr⟩)
          else .ok none

/-- The `for ticker_y, ticker_x in combinations(...)` loop of
`screen_universe`, accumulating `valid_pairs` in order. -/
noncomputable def screenLoop (cfg : ScreenConfig) :
    List Candidate → Except String (List PairResult)
  | [] => .ok []
  | c :: rest =>
    match screenStep cfg c with
    | .error e => .error e
    | .ok none => screenLoop cfg rest
    | .ok (some r) =>
      match screenLoop cfg rest with
      | .error e => .error e
      | .ok rs => .ok (r :: rs)

/-- Embeds `CointegrationTester.screen_universe` (`tester.py` lines 65-108): the
per-pair loop followed by the sort ascending by half-life (line 106), which
only reorders the accepted pairs. -/
noncomputable def screenUniverse (cfg : ScreenConfig)
    (cands : List Candidate) : Except String (List PairResult) :=
  (screenLoop cfg cands).map
    (fun l => l.mergeSort (fun a b => decide (a.half_life ≤ b.half_life)))

theorem screenStep_some (cfg : ScreenConfig) (c : Candidate) (r : PairResult)
    (h : screenStep cfg c = .ok (some r)) :
    (cfg.min_half_life : WithTop ℝ) ≤ r.half_life ∧
      r.half_life ≤ (cfg.max_half_life : WithTop ℝ) := by
  rw [screenStep] at h
  by_cases h1 : |c.corr| < cfg.min_correlation
  · simp [h1] at h
  by_cases h2 : c.overlap < cfg.rolling_window
  · simp [h1, h2] at h
  rcases heg : c.eg with e | d
  · simp [h1, h2, heg] at h
  by_cases h3 : cfg.significance < d.coint_pvalue
  · simp [h1, h2, heg, h3] at h
  rcases hhl : c.hl with e | hl
  · simp [h1, h2, heg, h3, hhl] at h
  by_cases h4 : (cfg.min_half_life : WithTop ℝ) ≤ hl ∧
      hl ≤ (cfg.max_half_life : WithTop ℝ)
  · simp only [h1, h2, heg, h3, hhl, h4, if_neg, if_pos, ite_true, ite_false,
      if_false, Except.ok.injEq, Option.some.injEq, and_true, if_true,
      not_false_eq_true, reduceIte] at h
    rcases h with rfl
    exact h4
  · simp [h1, h2, heg, h3, hhl, h4] at h

theorem screenLoop_mem (cfg : ScreenConfig) (cands : List Candidate)
    (l : List PairResult) (h : screenLoop cfg cands = .ok l) :
    ∀ r ∈ l, ∃ c ∈ cands, screenStep cfg c = .ok (some r) := by
  induction cands generalizing l with
  | nil =>
    simp only [screenLoop, Except.ok.injEq] at h
    subst h
    simp
  | cons c rest ih =>
    rw [screenLoop] at h
    rcases hstep : screenStep cfg c with e | o
    · rw [hstep] at h; cases h
    · rw [hstep] at h
      cases o with
      | none =>
        intro r hr
        rcases ih l h r hr with ⟨ca, hca, hcs⟩
        exact ⟨ca, List.mem_cons_of_mem c hca, hcs⟩
      | some r0 =>
        rcases hrest : screenLoop cfg rest with e | rs
        · rw [hrest] at h; cases h
        · rw [hrest] at h
          simp only [Except.ok.injEq] at h
          subst h
          intro r hr
          rcases List.mem_cons.mp hr with rfl | hr
          · exact ⟨c, List.mem_cons_self c rest, hstep⟩
          · rcases ih rs hrest r hr with ⟨ca, hca, hcs⟩
            exact ⟨ca, List.mem_cons_of_mem c hca, hcs⟩

theorem screenUniverse_mem (cfg : ScreenConfig) (cands : List Candidate)
    (out : List PairResult) (h : screenUniverse cfg cands = .ok out) :
    ∀ r ∈ out, ∃ c ∈ cands, screenStep cfg c = .ok (some r) := by
  rw [screenUniverse] at h
  rcases hloop : screenLoop cfg cands with e | l
  · rw [hloop] at h; cases h
  · rw [hloop] at h
    simp only [Except.map, Except.ok.injEq] at h
    subst h
    intro r hr
    exact screenLoop_mem cfg cands l hloop r (List.mem_mergeSort.mp hr)

/-- C5: `estimate_half_life` returns a positive finite value `-ln 2 / θ` when
the fitted slope θ is negative, `+∞` when θ ≥ 0; and every pair in
`screen_universe`'s output has its half-life inside
`[min_half_life, max_half_life]` (in particular it is never `+∞`) — a pair
with an out-of-bounds or infinite half-life is excluded no matter what its
cointegration p-value is. -/
theorem half_life_convention :
    (∀ spread : List ℝ, halfLifeTheta spread < 0 →
      estimateHalfLife spread = ↑(-Real.log 2 / halfLifeTheta spread) ∧
      0 < -Real.log 2 / halfLifeTheta spread) ∧
    (∀ spread : List ℝ, 0 ≤ halfLifeTheta spread →
      estimateHalfLife spread = ⊤) ∧
    (∀ (cfg : ScreenConfig) (cands : List Candidate) (out : List PairResult),
      screenUniverse cfg cands = .ok out → ∀ r ∈ out,
        (cfg.min_half_life : WithTop ℝ) ≤ r.half_life ∧
        r.half_life ≤ (cfg.max_half_life : WithTop ℝ) ∧ r.half_life ≠ ⊤) := by
  refine ⟨?_, ?_, ?_⟩
  · intro spread hneg
    refine ⟨by rw [estimateHalfLife, if_neg (not_le.mpr hneg)], ?_⟩
    have hl2 : 0 < Real.log 2 := Real.log_pos (by norm_num)
    have hrw : -Real.log 2 / halfLifeTheta spread =
        Real.log 2 / (-halfLifeTheta spread) := by
      rw [div_neg, neg_div]
    rw [hrw]
    exact div_pos hl2 (neg_pos.mpr hneg)
  · intro spread hpos
    rw [estimateHalfLife, if_pos hpos]
  · intro cfg cands out h r hr
    rcases screenUniverse_mem cfg cands out h r hr with ⟨c, -, hstep⟩
    rcases screenStep_some cfg c r hstep with ⟨hlo, hhi⟩
    refine ⟨hlo, hhi, ?_⟩
    intro htop
    rw [htop] at hhi
    exact WithTop.coe_ne_top (top_le_iff.mp hhi)

/-- Witness for C5: a mean-reverting spread (θ = -3/2 < 0) and a trending one
(θ = 1 ≥ 0). -/
theorem half_life_convention_witness :
    (halfLifeTheta [1, -1/2, 1/4] = -3/2 ∧
      estimateHalfLife [1, -1/2, 1/4] =
        ↑(-Real.log 2 / halfLifeTheta [1, -1/2, 1/4]) ∧
      0 < -Real.log 2 / halfLifeTheta [1, -1/2, 1/4]) ∧
    (halfLifeTheta [1, 2, 4] = 1 ∧ estimateHalfLife [1, 2, 4] = ⊤) := by
  have ht1 : halfLifeTheta [1, -1/2, 1/4] = -3/2 := by
    rw [halfLifeTheta]
    norm_num
  have ht2 : halfLifeTheta [1, 2, 4] = 1 := by
    rw [halfLifeTheta]
    norm_num
  have h1 := half_life_convention.1 [1, -1/2, 1/4] (by rw [ht1]; norm_num)
  have h2 := half_life_convention.2.1 [1, 2, 4] (by rw [ht2]; norm_num)
  exact ⟨⟨ht1, h1.1, h1.2⟩, ⟨ht2, h2⟩⟩

theorem screenStep_eg_error (cfg : ScreenConfig) (c : Candidate) (msg : String)
    (heg : c.eg = .error msg) : screenStep cfg c = .ok none := by
  rw [screenStep]
  by_cases h1 : |c.corr| < cfg.min_correlation
  · simp [h1]
  by_cases h2 : c.overlap < cfg.rolling_window
  · simp [h1, h2]
  simp [h1, h2, heg]

/-- C7 (amended): a failure inside `engle_granger_test` (steps 3-4: the OLS
regression and the cointegration/ADF tests) is caught, the pair is skipped
and screening continues; but a failure inside `estimate_half_life` (step 5)
is NOT caught — it propagates and aborts the whole pass. -/
theorem screen_exception_flow :
    (∀ (cfg : ScreenConfig) (c : Candidate) (rest : List Candidate)
        (msg : String), c.eg = .error msg →
      screenUniverse cfg (c :: rest) = screenUniverse cfg rest) ∧
    (∀ (cfg : ScreenConfig) (c : Candidate) (rest : List Candidate)
        (d : EGData) (e : String),
      ¬ |c.corr| < cfg.min_correlation → ¬ c.overlap < cfg.rolling_window →
      c.eg = .ok d → ¬ cfg.significance < d.coint_pvalue →
      c.hl = .error e → screenUniverse cfg (c :: rest) = .error e) := by
  constructor
  · intro cfg c rest msg heg
    rw [screenUniverse, screenUniverse, screenLoop,
      screenStep_eg_error cfg c msg heg]
  · intro cfg c rest d e h1 h2 heg h3 hhl
    have hstep : screenStep cfg c = .error e := by
      rw [screenStep]
      simp [h1, h2, heg, h3, hhl]
    rw [screenUniverse, screenLoop, hstep]
    rfl

/-- Witness for C7 (amended): an EG failure on the first candidate leaves the
second candidate's screening intact; a half-life failure aborts. -/
theorem screen_exception_flow_witness :
    screenUniverse ⟨5/100, 5, 120, 1/2, 252⟩
        [⟨1, 300, .error "SVD did not converge", .ok ⊤⟩,
         ⟨9/10, 300, .ok ⟨1/100, 2/100, 3/2, 0⟩, .ok (10 : ℝ)⟩] =
      screenUniverse ⟨5/100, 5, 120, 1/2, 252⟩
        [⟨9/10, 300, .ok ⟨1/100, 2/100, 3/2, 0⟩, .ok (10 : ℝ)⟩] ∧
    screenUniverse ⟨5/100, 5, 120, 1/2, 252⟩
        [⟨1, 300, .ok ⟨1/100, 2/100, 3/2, 0⟩, .error "lstsq failed"⟩] =
      .error "lstsq failed" := by
  constructor
  · exact screen_exception_flow.1 ⟨5/100, 5, 120, 1/2, 252⟩
      ⟨1, 300, .error "SVD did not converge", .ok ⊤⟩ _ "SVD did not converge"
      rfl
  · exact screen_exception_flow.2 ⟨5/100, 5, 120, 1/2, 252⟩
      ⟨1, 300, .ok ⟨1/100, 2/100, 3/2, 0⟩, .error "lstsq failed"⟩ [] _
      "lstsq failed" (by norm_num) (by norm_num) rfl (by norm_num) rfl

/-- C7 (counterexample to the claim as stated): a numerical failure in step 5
(half-life estimation) on one candidate makes the whole `screen_universe`
call abort with that error — the later candidate, which alone would be
accepted, is not returned. -/
theorem screen_half_life_failure_aborts :
    screenUniverse ⟨5/100, 5, 120, 1/2, 252⟩
        [⟨1, 300, .ok ⟨1/100, 2/100, 3/2, 0⟩, .error "lstsq failed"⟩,
         ⟨9/10, 300, .ok ⟨1/100, 2/100, 3/2, 0⟩, .ok (10 : ℝ)⟩] =
      .error "lstsq failed" ∧
    screenUniverse ⟨5/100, 5, 120, 1/2, 252⟩
        [⟨9/10, 300, .ok ⟨1/100, 2/100, 3/2, 0⟩, .ok (10 : ℝ)⟩] =
      .ok [⟨3/2, 0, 1/100, 2/100, (10 : ℝ), 9/10⟩] ∧
    ∀ out : List PairResult,
      screenUniverse ⟨5/100, 5, 120, 1/2, 252⟩
        [⟨1, 300, .ok ⟨1/100, 2/100, 3/2, 0⟩, .error "lstsq failed"⟩,
         ⟨9/10, 300, .ok ⟨1/100, 2/100, 3/2, 0⟩, .ok (10 : ℝ)⟩] ≠
      .ok out := by
  have habort : screenUniverse ⟨5/100, 5, 120, 1/2, 252⟩
      [⟨1, 300, .ok ⟨1/100, 2/100, 3/2, 0⟩, .error "lstsq failed"⟩,
       ⟨9/10, 300, .ok ⟨1/100, 2/100, 3/2, 0⟩, .ok (10 : ℝ)⟩] =
      .error "lstsq failed" := by
    have hstep : screenStep ⟨5/100, 5, 120, 1/2, 252⟩
        ⟨1, 300, .ok ⟨1/100, 2/100, 3/2, 0⟩, .error "lstsq failed"⟩ =
        .error "lstsq failed" := by
      rw [screenStep]
      norm_num
    rw [screenUniverse, screenLoop, hstep]
    rfl
  refine ⟨habort, ?_, ?_⟩
  · have hgood : screenStep ⟨5/100, 5, 120, 1/2, 252⟩
        ⟨9/10, 300, .ok ⟨1/100, 2/100, 3/2, 0⟩, .ok (10 : ℝ)⟩ =
        .ok (some ⟨3/2, 0, 1/100, 2/100, (10 : ℝ), 9/10⟩) := by
      rw [screenStep]
      simp only [WithTop.coe_le_coe]
      norm_num [abs_of_pos]
    rw [screenUniverse, screenLoop, hgood, screenLoop]
    simp [Except.map, List.mergeSort]
  · intro out hout
    rw [habort] at hout
    cases hout

/-- Running product with seed `acc` (`Series.cumprod()` on an all-defined
series, `engine.py` line 64). -/
def scanMul (acc : α) : List α → List α
  | [] => []
  | v :: rest => (acc * v) :: scanMul (acc * v) rest

/-- Running maximum continuing from `acc`. -/
def scanMax (acc : α) : List α → List α
  | [] => []
  | v :: rest => (max acc v) :: scanMax (max acc v) rest

/-- Embeds `Series.cummax()` (`engine.py` line 65). -/
def cummax : List α → List α
  | [] => []
  | v :: rest => v :: scanMax v rest

/-- Embeds `Series.mean()` of a non-empty series. -/
noncomputable def meanR (r : List ℝ) : ℝ := r.sum / r.length

/-- pandas `Series.std()`: sample standard deviation with `ddof=1`, undefined
(`NaN`) on fewer than two observations. -/
noncomputable def sampleStd (r : List ℝ) : Option ℝ :=
  if r.length < 2 then none
  else some (Real.sqrt ((r.map fun v => (v - meanR r) ^ 2).sum /
    ((r.length : ℝ) - 1)))

/-- Embeds `total = (1 + r).prod() - 1` (`engine.py` line 61). -/
noncomputable def totalReturn (r : List ℝ) : ℝ :=
  (r.map (fun v => 1 + v)).prod - 1

/-- Embeds `ann = (1 + total) ** (252/len(r)) - 1` (line 62), real exponentiation.
(For `1 + total < 0` numpy would yield `NaN` on the fractional power; no
claim depends on the value in that regime.) -/
noncomputable def annReturn (r : List ℝ) : ℝ :=
  (1 + totalReturn r) ^ ((252 : ℝ) / r.length) - 1

/-- Embeds `vol = r.std() * np.sqrt(252)` (line 63), undefined when the std is. -/
noncomputable def annVol (r : List ℝ) : Option ℝ :=
  (sampleStd r).map (fun s => s * Real.sqrt 252)

/-- Embeds `'sharpe_ratio': ann/vol if vol else 0` (line 73), with Python float
truthiness: `vol == 0.0` is falsy (giving 0); an undefined (`NaN`) vol is
truthy and propagates. -/
noncomputable def sharpeOf (r : List ℝ) : Option ℝ :=
  match annVol r with
  | none => none
  | some v => if v = 0 then some 0 else some (annReturn r / v)

/-- Embeds `dd = ((cum - cum.cummax()) / cum.cummax()).min()` (lines 64-65). -/
noncomputable def maxDrawdown (r : List ℝ) : Option ℝ :=
  let cum := scanMul 1 (r.map (fun v => 1 + v))
  (List.zipWith (fun c m => (c - m) / m) cum (cummax cum)).minimum?

/-- Embeds `wins/trades if trades else 0` (lines 66-67 and 75). -/
noncomputable def winRate (r : List ℝ) : ℝ :=
  let wins := (r.filter fun v => decide (0 < v)).length
  let trades := (r.filter fun v => decide (v ≠ 0)).length
  if trades = 0 then 0 else (wins : ℝ) / trades

/-- Embeds `gp = r[r > 0].sum()` (line 68). -/
noncomputable def grossProfit (r : List ℝ) : ℝ :=
  (r.filter fun v => decide (0 < v)).sum

/-- Embeds `gl = abs(r[r < 0].sum())` (line 69). -/
noncomputable def grossLoss (r : List ℝ) : ℝ :=
  |(r.filter fun v => decide (v < 0)).sum|

/-- Embeds `'profit_factor': gp/gl if gl else np.inf` (line 76): `np.inf` is `⊤`. -/
noncomputable def profitFactor (r : List ℝ) : WithTop ℝ :=
  if grossLoss r = 0 then ⊤ else ↑(grossProfit r / grossLoss r)

/-- The metrics mapping of `_compute_metrics` (lines 70-80).  The `skewness`
and `kurtosis` entries (line 79, pandas moment statistics) are referenced by
no claim and omitted here. -/
structure Metrics where
  total_return : ℝ
  annualized_return : ℝ
  annualized_volatility : Option ℝ
  sharpe : Option ℝ
  max_drawdown : Option ℝ
  win_rate : ℝ
  profit_factor : WithTop ℝ
  num_trading_days : ℕ
  avg_daily_return : ℝ

/-- Embeds `PairsBacktester._compute_metrics` (`engine.py` lines 57-80):
`r = returns.dropna()`; the empty mapping (`none`) when `r` is empty, else
the full record — each field a total function of `r`, so the computation
never raises. -/
noncomputable def computeMetrics (returns : List (Option ℝ)) : Option Metrics :=
  let r := returns.filterMap id
  if r.length = 0 then none
  else some
    { total_return := totalReturn r
      annualized_return := annReturn r
      annualized_volatility := annVol r
      sharpe := sharpeOf r
      max_drawdown := maxDrawdown r
      win_rate := winRate r
      profit_factor := profitFactor r
      num_trading_days := r.length
      avg_daily_return := meanR r }

/-- C6: metric computation returns the empty mapping on a series that is
empty after dropping missing values, a full record (never an error)
otherwise; zero annualized volatility gives Sharpe ratio 0; zero gross loss
gives profit factor `+∞`. -/
theorem metrics_degeneracies :
    (∀ returns : List (Option ℝ), returns.filterMap id = [] →
      computeMetrics returns = none) ∧
    (∀ returns : List (Option ℝ), returns.filterMap id ≠ [] →
      computeMetrics returns = some
        { total_return := totalReturn (returns.filterMap id)
          annualized_return := annReturn (returns.filterMap id)
          annualized_volatility := annVol (returns.filterMap id)
          sharpe := sharpeOf (returns.filterMap id)
          max_drawdown := maxDrawdown (returns.filterMap id)
          win_rate := winRate (returns.filterMap id)
          profit_factor := profitFactor (returns.filterMap id)
          num_trading_days := (returns.filterMap id).length
          avg_daily_return := meanR (returns.filterMap id) }) ∧
    (∀ r : List ℝ, annVol r = some 0 → sharpeOf r = some 0) ∧
    (∀ r : List ℝ, grossLoss r = 0 → profitFactor r = ⊤) := by
  refine ⟨?_, ?_, ?_, ?_⟩
  · intro returns h
    rw [computeMetrics]
    simp [h]
  · intro returns h
    rw [computeMetrics]
    simp only [List.length_eq_zero]
    rw [if_neg h]
  · intro r hvol
    rw [sharpeOf, hvol]
    simp
  · intro r hgl
    rw [profitFactor, if_pos hgl]

/-- Witness for C6: the empty series and the all-zero series of length 3. -/
theorem metrics_degeneracies_witness :
    computeMetrics [] = none ∧
    annVol [0, 0, 0] = some 0 ∧ sharpeOf [0, 0, 0] = some 0 ∧
    grossLoss [0, 0, 0] = 0 ∧ profitFactor [0, 0, 0] = ⊤ := by
  have hvol : annVol [0, 0, 0] = some 0 := by
    rw [annVol, sampleStd]
    rw [if_neg (by norm_num)]
    have hm : meanR [0, 0, 0] = 0 := by
      rw [meanR]
      norm_num
    simp only [hm, Option.map_some']
    norm_num [Real.sqrt_zero]
  have hgl : grossLoss [0, 0, 0] = 0 := by
    rw [grossLoss]
    have : ([0, 0, 0] : List ℝ).filter (fun v => decide (v < 0)) = [] := by
      simp
    rw [this]
    simp
  exact ⟨metrics_degeneracies.1 [] rfl, hvol,
    metrics_degeneracies.2.2.1 _ hvol, hgl,
    metrics_degeneracies.2.2.2 _ hgl⟩

end StatArb
